import Mathlib

/-!
# Verification of the esp-ota-nostd OTA update core

Shallow embedding of the library's three components — partition locator
(`src/partitions.rs`), OTA metadata store (`src/ota_data.rs`) and update
orchestrator (`src/lib.rs`) — together with proofs of the specification's
claims about them.

Flash storage is modelled as a byte memory `Nat → Nat` (bytes are masked
`% 256` on read, matching the `u8` cells of the hardware), a pre-parsed
partition table (the external `esp_partition_table` iterator yields fallible
entries), and three predicates deciding whether a given `read`/`write`/`erase`
call succeeds. Every operation additionally returns the trace of flash
operations it attempted, so "performs no writes", "only reads happen before
the failure" and "the metadata write strictly follows the last image write"
are directly statable. `u32` arithmetic from the Rust source is embedded as
`Nat` arithmetic modulo `2 ^ 32` (release-mode wrapping semantics).

The files `src/ota_data_structs.rs` and `src/crc.rs` are declared in
`lib.rs` but are not part of the provided sources; the record layout, the
checksum and `EspOTAData::new` are therefore modelled from the spec
(§3 UpdateRecord, §6 persisted state layout) and marked as such below.
-/

namespace EspOta

/-- Size of a flash sector (`SECTOR_SIZE` in `lib.rs`). -/
def SECTOR_SIZE : Nat := 0x1000

/-- `2 ^ 32`, the modulus of Rust `u32` arithmetic. -/
def U32MOD : Nat := 2 ^ 32

/-- Wrapping `u32` increment (`seq + 1` on a `u32`). -/
def u32add1 (n : Nat) : Nat := (n + 1) % U32MOD

/-- Wrapping `u32` decrement (`seq - 1` on a `u32`, wrapping at 0). -/
def u32sub1 (n : Nat) : Nat := (n + (U32MOD - 1)) % U32MOD

/-- Partition types relevant to the library: `PartitionType::App(Ota(n))`,
`PartitionType::Data(Ota)`, and everything else (opaque to this core). -/
inductive PartitionType where
  | app (slot : Nat)
  | dataOta
  | other (tag : Nat)
deriving DecidableEq, Repr

/-- A parsed partition-table entry (`esp_partition_table::PartitionEntry`). -/
structure PartitionEntry where
  type_ : PartitionType
  offset : Nat
  size : Nat
  name : String
deriving DecidableEq, Repr

/-- `OtaInternalError` from `src/error.rs`. The underlying storage error is
opaque, so `NorFlashOpError(_)` is collapsed to a single constructor. -/
inductive OtaInternalError where
  | otaDataCorrupt
  | norFlashOpError
  | partitionNotFound
  | partitionFoundTwice
deriving DecidableEq, Repr

/-- `OtaUpdateError` from `src/error.rs` (payloads of `ReadError` and the
wrapped storage errors are opaque). -/
inductive OtaUpdateError where
  | pendingVerify
  | outOfSpace
  | alreadyUpdating
  | readError
  | internalError (e : OtaInternalError)
deriving DecidableEq, Repr

/-- One attempted flash operation, for the operation trace. -/
inductive FlashOp where
  | read (off len : Nat)
  | write (off : Nat) (data : List Nat)
  | erase (lo hi : Nat)
deriving DecidableEq, Repr

/-- Whether a flash operation is a read. -/
def FlashOp.isRead : FlashOp → Bool
  | .read _ _ => true
  | _ => false

/-- The flash device handed to every operation: the partition table the
external iterator yields (each entry fallible on its own), the byte memory,
and success predicates for the three NOR-flash primitives. -/
structure Flash where
  table : List (Except Unit PartitionEntry)
  mem : Nat → Nat
  readOk : Nat → Nat → Bool
  writeOk : Nat → Nat → Bool
  eraseOk : Nat → Nat → Bool

/-- The bytes obtained by reading `len` bytes at `off` (cells masked to `u8`). -/
def readBytes (f : Flash) (off len : Nat) : List Nat :=
  (List.range len).map fun i => f.mem (off + i) % 256

/-- `storage.read(off, buffer)`: fallible read of `len` bytes. -/
def flashRead (f : Flash) (off len : Nat) : Except Unit (List Nat) :=
  if f.readOk off len then .ok (readBytes f off len) else .error ()

/-- Memory after writing `data` at `off`. -/
def writeMem (m : Nat → Nat) (off : Nat) (data : List Nat) : Nat → Nat :=
  fun a => if off ≤ a ∧ a < off + data.length then data.getD (a - off) 0 else m a

/-- `storage.write(off, data)`: fallible write. -/
def flashWrite (f : Flash) (off : Nat) (data : List Nat) : Except Unit Flash :=
  if f.writeOk off data.length then .ok { f with mem := writeMem f.mem off data }
  else .error ()

/-- Memory after erasing the range `[lo, hi)` (NOR erase sets cells to `0xFF`). -/
def eraseMem (m : Nat → Nat) (lo hi : Nat) : Nat → Nat :=
  fun a => if lo ≤ a ∧ a < hi then 0xFF else m a

/-- `storage.erase(lo, hi)`: fallible erase. -/
def flashErase (f : Flash) (lo hi : Nat) : Except Unit Flash :=
  if f.eraseOk lo hi then .ok { f with mem := eraseMem f.mem lo hi }
  else .error ()

/-- Result of a storage-touching library operation: the `Result` value, the
flash state afterwards, and the trace of attempted flash operations. -/
structure OpResult (ε α : Type) where
  res : Except ε α
  flash : Flash
  ops : List FlashOp

/-- Prepend already-performed operations to a later result's trace. -/
def andThen {ε α : Type} (ops : List FlashOp) (r : OpResult ε α) : OpResult ε α :=
  ⟨r.res, r.flash, ops ++ r.ops⟩

/-! ## Partition locator (`src/partitions.rs`) -/

/-- The scanning loop shared by both locators: `sel` is the match predicate
(type equality or name equality), `found` the partition found so far. -/
def findPartitionGo (sel : PartitionEntry → Bool) :
    List (Except Unit PartitionEntry) → Option PartitionEntry →
    Except OtaInternalError PartitionEntry
  | [], none => .error .partitionNotFound
  | [], some p => .ok p
  | .error _ :: _, _ => .error .norFlashOpError
  | .ok e :: rest, found =>
    if sel e then
      match found with
      | none => findPartitionGo sel rest (some e)
      | some _ => .error .partitionFoundTwice
    else findPartitionGo sel rest found

/-- `find_partition_by_type` from `src/partitions.rs`. -/
def find_partition_by_type (table : List (Except Unit PartitionEntry))
    (typ : PartitionType) : Except OtaInternalError PartitionEntry :=
  findPartitionGo (fun e => e.type_ = typ) table none

/-- `find_partition_by_name` from `src/partitions.rs`. -/
def find_partition_by_name (table : List (Except Unit PartitionEntry))
    (name : String) : Except OtaInternalError PartitionEntry :=
  findPartitionGo (fun e => e.name = name) table none

/-! ## OTA metadata record (modelled from the spec: `src/ota_data_structs.rs`
and `src/crc.rs` are declared in `lib.rs` but are not under `src/`). -/

/-- `EspOTAState`: the six verification states (§3 UpdateState). -/
inductive EspOTAState where
  | undefined
  | new
  | pendingVerify
  | valid
  | invalid
  | aborted
deriving DecidableEq, Repr

/-- Modelled from the spec: the on-flash tag of each state (exact bit packing
is left to the implementer by §6, any deterministic round-tripping encoding
satisfies the contract). -/
def EspOTAState.toTag : EspOTAState → Nat
  | .undefined => 0
  | .new => 1
  | .pendingVerify => 2
  | .valid => 3
  | .invalid => 4
  | .aborted => 5

/-- Modelled from the spec: decoding a state tag; tags outside the six states
fail validation. -/
def EspOTAState.ofTag : Nat → Option EspOTAState
  | 0 => some .undefined
  | 1 => some .new
  | 2 => some .pendingVerify
  | 3 => some .valid
  | 4 => some .invalid
  | 5 => some .aborted
  | _ => none

/-- `EspOTAData` (§3 UpdateRecord): sequence number, verification state and
the 20-byte reserved field. -/
structure EspOTAData where
  seq : Nat
  state : EspOTAState
  reserved : List Nat
deriving DecidableEq, Repr

/-- A record representable as the Rust value (`seq: u32`, `reserved: [u8; 20]`). -/
def EspOTAData.WF (d : EspOTAData) : Prop :=
  d.seq < U32MOD ∧ d.reserved.length = 20 ∧ ∀ b ∈ d.reserved, b < 256

instance (d : EspOTAData) : Decidable d.WF := by
  unfold EspOTAData.WF; infer_instance

/-- Modelled from the spec: the checksum primitive of `src/crc.rs` (§6 leaves
the algorithm open; any deterministic checksum over the 28-byte payload
satisfies the contract). -/
def crc32 (payload : List Nat) : Nat :=
  payload.foldl (fun acc b => (acc * 31 + b % 256) % U32MOD) 5381

/-- Little-endian 4-byte encoding of a `u32`. -/
def le32 (n : Nat) : List Nat :=
  [n % 256, n / 256 % 256, n / 65536 % 256, n / 16777216 % 256]

/-- Little-endian 4-byte decoding. -/
def de32 (l : List Nat) : Nat :=
  l.getD 0 0 + 256 * l.getD 1 0 + 65536 * l.getD 2 0 + 16777216 * l.getD 3 0

/-- The reserved field as exactly 20 bytes. -/
def pad20 (l : List Nat) : List Nat :=
  (l.map (· % 256) ++ List.replicate 20 0xFF).take 20

/-- The 28-byte checksummed payload of a record: sequence (4 bytes LE), state
tag (1 byte), reserved field (20 bytes), padding (3 bytes). -/
def encodePayload (d : EspOTAData) : List Nat :=
  le32 (d.seq % U32MOD) ++ [d.state.toTag] ++ pad20 d.reserved ++ [0, 0, 0]

/-- Modelled from the spec: `impl From<EspOTAData> for [u8; 32]` — the 28-byte
payload followed by the 4-byte LE checksum trailer over it. -/
def EspOTAData.encode (d : EspOTAData) : List Nat :=
  encodePayload d ++ le32 (crc32 (encodePayload d))

/-- Modelled from the spec: `EspOTAData::try_from(buffer)` — decode the fixed
32-byte block and validate its integrity (checksum trailer and state tag). -/
def EspOTAData.tryFrom (buf : List Nat) : Option EspOTAData :=
  let b := buf.map (· % 256)
  if b.length = 32 ∧ de32 (b.drop 28) = crc32 (b.take 28) then
    match EspOTAState.ofTag (b.getD 4 0) with
    | some st => some ⟨de32 (b.take 4), st, (b.drop 5).take 20⟩
    | none => none
  else none

/-- Modelled from the spec: `EspOTAData::new(seq, reserved)` initializes the
verification-state field to its not-yet-verified sentinel (state `New`). -/
def EspOTAData.new (seq : Nat) (reserved : List Nat) : EspOTAData :=
  ⟨seq, .new, reserved⟩

/-- `EspOTAData::is_valid`: §3 invariant `is_valid() ⇔ state == Valid`. -/
def EspOTAData.is_valid (d : EspOTAData) : Bool :=
  match d.state with
  | .valid => true
  | _ => false

/-! ## OTA metadata store (`src/ota_data.rs`) -/

/-- `read_ota_data` from `src/ota_data.rs`: try copy A at the metadata
partition's base offset, then copy B one sector further; fail with
`OtaDataCorrupt` only when both copies fail validation. -/
def read_ota_data (f : Flash) : OpResult OtaInternalError EspOTAData :=
  match find_partition_by_type f.table .dataOta with
  | .error e => ⟨.error e, f, []⟩
  | .ok p =>
    match flashRead f p.offset 32 with
    | .error _ => ⟨.error .norFlashOpError, f, [.read p.offset 32]⟩
    | .ok bufA =>
      match EspOTAData.tryFrom bufA with
      | some d => ⟨.ok d, f, [.read p.offset 32]⟩
      | none =>
        match flashRead f (p.offset + SECTOR_SIZE) 32 with
        | .error _ =>
          ⟨.error .norFlashOpError, f,
            [.read p.offset 32, .read (p.offset + SECTOR_SIZE) 32]⟩
        | .ok bufB =>
          match EspOTAData.tryFrom bufB with
          | some d =>
            ⟨.ok d, f, [.read p.offset 32, .read (p.offset + SECTOR_SIZE) 32]⟩
          | none =>
            ⟨.error .otaDataCorrupt, f,
              [.read p.offset 32, .read (p.offset + SECTOR_SIZE) 32]⟩

/-- `write_ota_data` from `src/ota_data.rs`: erase and rewrite copy A, then
erase and rewrite copy B, both with the same encoded 32-byte buffer. -/
def write_ota_data (f : Flash) (data : EspOTAData) : OpResult OtaInternalError Unit :=
  match find_partition_by_type f.table .dataOta with
  | .error e => ⟨.error e, f, []⟩
  | .ok p =>
    let buffer := data.encode
    let eA : FlashOp := .erase p.offset (p.offset + SECTOR_SIZE)
    let wA : FlashOp := .write p.offset buffer
    let eB : FlashOp := .erase (p.offset + SECTOR_SIZE) (p.offset + 2 * SECTOR_SIZE)
    let wB : FlashOp := .write (p.offset + SECTOR_SIZE) buffer
    match flashErase f p.offset (p.offset + SECTOR_SIZE) with
    | .error _ => ⟨.error .norFlashOpError, f, [eA]⟩
    | .ok f1 =>
      match flashWrite f1 p.offset buffer with
      | .error _ => ⟨.error .norFlashOpError, f1, [eA, wA]⟩
      | .ok f2 =>
        match flashErase f2 (p.offset + SECTOR_SIZE) (p.offset + 2 * SECTOR_SIZE) with
        | .error _ => ⟨.error .norFlashOpError, f2, [eA, wA, eB]⟩
        | .ok f3 =>
          match flashWrite f3 (p.offset + SECTOR_SIZE) buffer with
          | .error _ => ⟨.error .norFlashOpError, f3, [eA, wA, eB, wB]⟩
          | .ok f4 => ⟨.ok (), f4, [eA, wA, eB, wB]⟩

/-! ## Update orchestrator (`src/lib.rs`) -/

/-- `ota_accept` from `src/lib.rs`: read the record and transition its state
per the §4.3 accept table, persisting via `write_ota_data` unless the state
is already `Valid`. -/
def ota_accept (f : Flash) : OpResult OtaInternalError Unit :=
  let rd := read_ota_data f
  match rd.res with
  | .error e => ⟨.error e, rd.flash, rd.ops⟩
  | .ok d =>
    match d.state with
    | .pendingVerify =>
      andThen rd.ops (write_ota_data rd.flash { d with state := .valid })
    | .new | .undefined =>
      andThen rd.ops (write_ota_data rd.flash { d with state := .valid })
    | .invalid | .aborted =>
      andThen rd.ops
        (write_ota_data rd.flash { d with state := .valid, seq := u32sub1 d.seq })
    | .valid => ⟨.ok (), rd.flash, rd.ops⟩

/-- `ota_reject` from `src/lib.rs`: read the record and transition its state
per the §4.3 reject table; `Valid`, `Invalid` and `Aborted` are no-ops. -/
def ota_reject (f : Flash) : OpResult OtaInternalError Unit :=
  let rd := read_ota_data f
  match rd.res with
  | .error e => ⟨.error e, rd.flash, rd.ops⟩
  | .ok d =>
    match d.state with
    | .pendingVerify =>
      andThen rd.ops (write_ota_data rd.flash { d with state := .invalid })
    | .new | .undefined =>
      andThen rd.ops (write_ota_data rd.flash { d with state := .invalid })
    | .valid => ⟨.ok (), rd.flash, rd.ops⟩
    | .invalid => ⟨.ok (), rd.flash, rd.ops⟩
    | .aborted => ⟨.ok (), rd.flash, rd.ops⟩

/-- `ota_is_valid` from `src/lib.rs`. -/
def ota_is_valid (f : Flash) : OpResult OtaInternalError Bool :=
  let rd := read_ota_data f
  ⟨rd.res.map (·.is_valid), rd.flash, rd.ops⟩

/-- `get_booted_partition` from `src/lib.rs`: resolve the app partition of
slot `(seq - 1) % 2` (wrapping `u32` subtraction). -/
def get_booted_partition (f : Flash) : OpResult OtaInternalError PartitionEntry :=
  let rd := read_ota_data f
  match rd.res with
  | .error e => ⟨.error e, rd.flash, rd.ops⟩
  | .ok d =>
    ⟨find_partition_by_type rd.flash.table (.app (u32sub1 d.seq % 2)),
      rd.flash, rd.ops⟩

/-- The firmware image stream (`embedded_io_async::Read`): successive results
of `read` calls, each either a read error or a chunk of bytes of which the
call takes at most the requested amount; reading past the end of the list,
or an empty chunk, signals end of stream (a read of 0 bytes). -/
def ImageStream : Type := List (Except Unit (List Nat))

/-- The inner `while read_len < SECTOR_SIZE` loop of `ota_begin`: fill the
sector buffer from the stream. Returns the bytes read so far (`acc` models
`data_buffer[0..read_len]`), the `is_done` flag, and the remaining stream;
a stream read error aborts (`OtaUpdateError::ReadError`). -/
def fillBuffer (rdr : ImageStream) (acc : List Nat) :
    Except Unit (List Nat × Bool × ImageStream) :=
  if acc.length < SECTOR_SIZE then
    match rdr with
    | [] => .ok (acc, true, [])
    | .error _ :: _ => .error ()
    | .ok chunk :: rest =>
      let taken := chunk.take (SECTOR_SIZE - acc.length)
      if taken.length = 0 then .ok (acc, true, rest)
      else fillBuffer rest (acc ++ taken)
  else .ok (acc, false, rdr)

/-- Result of `ota_begin`: the value of the `IS_UPDATING` flag afterwards,
the `Result`, the flash state, the flash operation trace, and the cumulative
byte counts passed to `progress_fn`. -/
structure BeginResult where
  flag : Bool
  res : Except OtaUpdateError Unit
  flash : Flash
  ops : List FlashOp
  progress : List Nat

/-- Prepend prior flash operations to a begin-phase result. -/
def beginThen (ops : List FlashOp) (r : BeginResult) : BeginResult :=
  ⟨r.flag, r.res, r.flash, ops ++ r.ops, r.progress⟩

private theorem fillBuffer_rest_length {rdr : ImageStream} {acc buf : List Nat}
    {done : Bool} {rest : ImageStream}
    (h : fillBuffer rdr acc = .ok (buf, done, rest)) (hacc : acc.length < SECTOR_SIZE)
    (hdone : done = false) : rest.length < rdr.length := by
  induction rdr generalizing acc with
  | nil =>
    unfold fillBuffer at h
    rw [if_pos hacc] at h
    simp only [Except.ok.injEq, Prod.mk.injEq] at h
    exact absurd (h.2.1.trans hdone) (by simp)
  | cons hd tl ih =>
    unfold fillBuffer at h
    rw [if_pos hacc] at h
    cases hd with
    | error e => simp at h
    | ok chunk =>
      simp only at h
      by_cases hz : (chunk.take (SECTOR_SIZE - acc.length)).length = 0
      · rw [if_pos hz] at h
        simp only [Except.ok.injEq, Prod.mk.injEq] at h
        rw [← h.2.2]
        simp
      · rw [if_neg hz] at h
        by_cases h2 : (acc ++ chunk.take (SECTOR_SIZE - acc.length)).length < SECTOR_SIZE
        · have := ih h h2
          simpa using Nat.lt_succ_of_lt this
        · unfold fillBuffer at h
          rw [if_neg h2] at h
          simp only [Except.ok.injEq, Prod.mk.injEq] at h
          rw [← h.2.2]
          simp

/-- The `loop` of `ota_begin` that stream-copies the image into the target
partition `app`, starting with `dw` bytes already written. -/
def copyLoop (f : Flash) (rdr : ImageStream) (app : PartitionEntry) (dw : Nat) :
    BeginResult :=
  match h : fillBuffer rdr [] with
  | .error _ => ⟨true, .error .readError, f, [], []⟩
  | .ok (buf, done, rest) =>
    if dw + buf.length > app.size then
      ⟨true, .error .outOfSpace, f, [], []⟩
    else
      let wop : FlashOp := .write (app.offset + dw) buf
      match flashWrite f (app.offset + dw) buf with
      | .error _ =>
        ⟨true, .error (.internalError .norFlashOpError), f, [wop], []⟩
      | .ok f' =>
        if hd : done then ⟨true, .ok (), f', [wop], [dw + buf.length]⟩
        else
          let r := copyLoop f' rest app (dw + buf.length)
          ⟨r.flag, r.res, r.flash, wop :: r.ops, (dw + buf.length) :: r.progress⟩
termination_by rdr.length
decreasing_by
  exact fillBuffer_rest_length h (by simp [SECTOR_SIZE]) (by simpa using hd)

/-- The write phase of `ota_begin`, after the target app partition has been
located: erase the full target partition, stream-copy the image, then persist
the new boot record `EspOTAData::new(new_seq, [0xFF; 20])`. -/
def beginWritePhase (f : Flash) (rdr : ImageStream) (ota_app : PartitionEntry)
    (new_seq : Nat) : BeginResult :=
  let eop : FlashOp := .erase ota_app.offset (ota_app.offset + ota_app.size)
  match flashErase f ota_app.offset (ota_app.offset + ota_app.size) with
  | .error _ => ⟨true, .error (.internalError .norFlashOpError), f, [eop], []⟩
  | .ok f1 =>
    let cp := copyLoop f1 rdr ota_app 0
    match cp.res with
    | .error e => ⟨true, .error e, cp.flash, eop :: cp.ops, cp.progress⟩
    | .ok _ =>
      let data := EspOTAData.new new_seq (List.replicate 20 0xFF)
      let wr := write_ota_data cp.flash data
      match wr.res with
      | .error e =>
        ⟨true, .error (.internalError e), wr.flash,
          eop :: (cp.ops ++ wr.ops), cp.progress⟩
      | .ok _ => ⟨true, .ok (), wr.flash, eop :: (cp.ops ++ wr.ops), cp.progress⟩

/-- `ota_begin` from `src/lib.rs`. The process-wide `IS_UPDATING` atomic is
threaded explicitly: `flag` is its value on entry, the first component of the
result its value afterwards (`swap(true)` as the first action). -/
def ota_begin (flag : Bool) (f : Flash) (rdr : ImageStream) : BeginResult :=
  if flag then ⟨true, .error .alreadyUpdating, f, [], []⟩
  else
    let rd := read_ota_data f
    match rd.res with
    | .error e => ⟨true, .error (.internalError e), rd.flash, rd.ops, []⟩
    | .ok ota_data =>
      if ota_data.is_valid = false then
        ⟨true, .error .pendingVerify, rd.flash, rd.ops, []⟩
      else
        let new_seq := u32add1 ota_data.seq
        let new_part := u32sub1 new_seq % 2
        match find_partition_by_type rd.flash.table (.app new_part) with
        | .error e => ⟨true, .error (.internalError e), rd.flash, rd.ops, []⟩
        | .ok ota_app => beginThen rd.ops (beginWritePhase rd.flash rdr ota_app new_seq)

/-! ## Concrete fixtures (an ESP32-style layout) used to witness the theorems -/

/-- The OTA metadata data partition. -/
def sampleMeta : PartitionEntry := ⟨.dataOta, 0x9000, 0x2000, "otadata"⟩

/-- A second OTA metadata partition (for duplicate-entry scenarios). -/
def sampleMeta2 : PartitionEntry := ⟨.dataOta, 0xB000, 0x2000, "otadata"⟩

/-- Application slot 0. -/
def sampleApp0 : PartitionEntry := ⟨.app 0, 0x10000, 0x100000, "ota_0"⟩

/-- Application slot 1. -/
def sampleApp1 : PartitionEntry := ⟨.app 1, 0x110000, 0x100000, "ota_1"⟩

/-- A well-formed three-entry partition table. -/
def sampleTable : List (Except Unit PartitionEntry) :=
  [.ok sampleMeta, .ok sampleApp0, .ok sampleApp1]

/-- A valid, accepted record at sequence 5. -/
def sampleRecord : EspOTAData := ⟨5, .valid, List.replicate 20 0xAA⟩

/-- Flash with zeroed memory and all operations succeeding. -/
def blankFlash : Flash :=
  ⟨sampleTable, fun _ => 0, fun _ _ => true, fun _ _ => true, fun _ _ => true⟩

/-- Flash holding `sampleRecord` in the metadata partition. -/
def sampleFlash : Flash := (write_ota_data blankFlash sampleRecord).flash

/-- Flash state after `ota_begin`'s erase of the target partition (slot 1)
in the concrete 3-byte update run over `sampleFlash`. -/
def erasedFlash : Flash :=
  ⟨sampleFlash.table,
    eraseMem sampleFlash.mem sampleApp1.offset (sampleApp1.offset + sampleApp1.size),
    sampleFlash.readOk, sampleFlash.writeOk, sampleFlash.eraseOk⟩

/-- Flash state after the 3-byte image write of the concrete run. -/
def writtenFlash : Flash :=
  ⟨erasedFlash.table,
    writeMem erasedFlash.mem (sampleApp1.offset + 0) [1, 2, 3],
    erasedFlash.readOk, erasedFlash.writeOk, erasedFlash.eraseOk⟩

/-- A rejected record with the degenerate sequence 0. -/
def zeroRecord : EspOTAData := ⟨0, .invalid, List.replicate 20 0⟩

/-- Flash holding `zeroRecord` in the metadata partition. -/
def zeroFlash : Flash := (write_ota_data blankFlash zeroRecord).flash

/-- A tiny (10-byte) application partition for space-bound scenarios. -/
def smallApp : PartitionEntry := ⟨.app 1, 0x110000, 10, "ota_1"⟩

/-- A not-yet-verified record at sequence 6. -/
def pendingRecord : EspOTAData := ⟨6, .pendingVerify, List.replicate 20 0xFF⟩

/-- Flash holding `pendingRecord` in the metadata partition. -/
def pendingFlash : Flash := (write_ota_data blankFlash pendingRecord).flash

/-! ## Lemmas about the record encoding -/

theorem U32MOD_eq : U32MOD = 4294967296 := by norm_num [U32MOD]

theorem crc32_lt (l : List Nat) : crc32 l < U32MOD := by
  have key : ∀ (l : List Nat) (acc : Nat), acc < U32MOD →
      l.foldl (fun acc b => (acc * 31 + b % 256) % U32MOD) acc < U32MOD := by
    intro l
    induction l with
    | nil => exact fun acc h => h
    | cons hd tl ih =>
      intro acc _
      exact ih _ (Nat.mod_lt _ (by rw [U32MOD_eq]; norm_num))
  exact key l 5381 (by rw [U32MOD_eq]; norm_num)

theorem mem_le32_lt (n : Nat) : ∀ b ∈ le32 n, b < 256 := by
  intro b hb
  simp only [le32, List.mem_cons, List.not_mem_nil, or_false] at hb
  rcases hb with h | h | h | h <;> subst h <;> exact Nat.mod_lt _ (by norm_num)

theorem de32_le32 {n : Nat} (h : n < U32MOD) : de32 (le32 n) = n := by
  rw [U32MOD_eq] at h
  simp only [de32, le32, List.getD_cons_zero, List.getD_cons_succ]
  omega

theorem pad20_length (l : List Nat) : (pad20 l).length = 20 := by
  simp [pad20]

theorem pad20_eq {l : List Nat} (h1 : l.length = 20) (h2 : ∀ b ∈ l, b < 256) :
    pad20 l = l := by
  unfold pad20
  have hm : l.map (· % 256) = l := by
    conv_rhs => rw [← List.map_id l]
    exact List.map_congr_left fun b hb => Nat.mod_eq_of_lt (h2 b hb)
  rw [hm, ← h1, List.take_left]

theorem mem_pad20_lt (l : List Nat) : ∀ b ∈ pad20 l, b < 256 := by
  intro b hb
  have hb' := List.mem_of_mem_take hb
  rcases List.mem_append.1 hb' with h | h
  · obtain ⟨a, _, rfl⟩ := List.mem_map.1 h
    exact Nat.mod_lt _ (by norm_num)
  · rw [List.eq_of_mem_replicate h]; norm_num

theorem toTag_lt (s : EspOTAState) : s.toTag < 256 := by
  cases s <;> simp [EspOTAState.toTag]

theorem encodePayload_length (d : EspOTAData) : (encodePayload d).length = 28 := by
  simp [encodePayload, le32, pad20_length]

theorem encode_length (d : EspOTAData) : d.encode.length = 32 := by
  simp [EspOTAData.encode, encodePayload_length, le32]

theorem mem_encodePayload_lt (d : EspOTAData) : ∀ b ∈ encodePayload d, b < 256 := by
  intro b hb
  unfold encodePayload at hb
  rcases List.mem_append.1 hb with h | h
  · rcases List.mem_append.1 h with h' | h'
    · rcases List.mem_append.1 h' with h'' | h''
      · exact mem_le32_lt _ b h''
      · rw [List.mem_singleton.1 h'']; exact toTag_lt d.state
    · exact mem_pad20_lt _ b h'
  · simp only [List.mem_cons, List.not_mem_nil, or_false] at h
    rcases h with h | h | h <;> subst h <;> norm_num

theorem mem_encode_lt (d : EspOTAData) : ∀ b ∈ d.encode, b < 256 := by
  intro b hb
  rcases List.mem_append.1 hb with h | h
  · exact mem_encodePayload_lt d b h
  · exact mem_le32_lt _ b h

theorem encode_map_mod (d : EspOTAData) : d.encode.map (· % 256) = d.encode := by
  conv_rhs => rw [← List.map_id d.encode]
  exact List.map_congr_left fun b hb => Nat.mod_eq_of_lt (mem_encode_lt d b hb)

theorem encode_drop28 (d : EspOTAData) :
    d.encode.drop 28 = le32 (crc32 (encodePayload d)) := by
  rw [EspOTAData.encode, ← encodePayload_length d, List.drop_left]

theorem encode_take28 (d : EspOTAData) : d.encode.take 28 = encodePayload d := by
  rw [EspOTAData.encode, ← encodePayload_length d, List.take_left]

theorem ofTag_toTag (s : EspOTAState) : EspOTAState.ofTag s.toTag = some s := by
  cases s <;> rfl

/-- Round-trip: decoding a freshly encoded representable record succeeds and
yields the record back (spec §8, round-trip property). -/
theorem tryFrom_encode {d : EspOTAData} (h : d.WF) :
    EspOTAData.tryFrom d.encode = some d := by
  obtain ⟨h1, h2, h3⟩ := h
  have hseq : d.seq % U32MOD = d.seq := Nat.mod_eq_of_lt h1
  have hpad : pad20 d.reserved = d.reserved := pad20_eq h2 h3
  unfold EspOTAData.tryFrom
  rw [encode_map_mod]
  rw [if_pos ⟨encode_length d, by rw [encode_drop28, encode_take28,
    de32_le32 (crc32_lt _)]⟩]
  have hcons : d.encode = (d.seq % 256) :: (d.seq / 256 % 256) ::
      (d.seq / 65536 % 256) :: (d.seq / 16777216 % 256) :: d.state.toTag ::
      (pad20 d.reserved ++ [0, 0, 0] ++ le32 (crc32 (encodePayload d))) := by
    simp [EspOTAData.encode, encodePayload, le32, hseq]
  rw [hcons]
  simp only [List.getD_cons_zero, List.getD_cons_succ, ofTag_toTag,
    List.take_succ_cons, List.take_zero, List.drop_succ_cons, List.drop_zero]
  rw [hpad]
  simp only [Option.some.injEq, EspOTAData.mk.injEq, de32,
    List.getD_cons_zero, List.getD_cons_succ]
  have hres : List.take 20 (d.reserved ++ [0, 0, 0] ++
      le32 (crc32 (encodePayload d))) = d.reserved := by
    rw [List.append_assoc, ← h2, List.take_left]
  have hseq4 : d.seq % 256 + 256 * (d.seq / 256 % 256) +
      65536 * (d.seq / 65536 % 256) + 16777216 * (d.seq / 16777216 % 256) =
      d.seq := by
    rw [U32MOD_eq] at h1
    omega
  rw [hres, hseq4]

/-! ## Lemmas about the partition locator -/

theorem findGo_skip (sel : PartitionEntry → Bool) (pre : List PartitionEntry)
    (rest : List (Except Unit PartitionEntry)) (found : Option PartitionEntry)
    (h : ∀ e ∈ pre, sel e = false) :
    findPartitionGo sel (pre.map .ok ++ rest) found = findPartitionGo sel rest found := by
  induction pre with
  | nil => simp
  | cons hd tl ih =>
    have hhd : sel hd = false := h hd (by simp)
    simp only [List.map_cons, List.cons_append, findPartitionGo]
    rw [if_neg (by simp [hhd])]
    exact ih fun e he => h e (by simp [he])

theorem findGo_nil_none (sel : PartitionEntry → Bool) :
    findPartitionGo sel [] none = .error .partitionNotFound := rfl

theorem findGo_nil_some (sel : PartitionEntry → Bool) (p : PartitionEntry) :
    findPartitionGo sel [] (some p) = .ok p := rfl

theorem findGo_err (sel : PartitionEntry → Bool) (u : Unit)
    (rest : List (Except Unit PartitionEntry)) (found : Option PartitionEntry) :
    findPartitionGo sel (.error u :: rest) found = .error .norFlashOpError := rfl

theorem findGo_hit (sel : PartitionEntry → Bool) (e : PartitionEntry)
    (rest : List (Except Unit PartitionEntry)) (he : sel e = true) :
    findPartitionGo sel (.ok e :: rest) none = findPartitionGo sel rest (some e) := by
  simp only [findPartitionGo, if_pos he]

theorem findGo_twice (sel : PartitionEntry → Bool) (e p : PartitionEntry)
    (rest : List (Except Unit PartitionEntry)) (he : sel e = true) :
    findPartitionGo sel (.ok e :: rest) (some p) = .error .partitionFoundTwice := by
  simp only [findPartitionGo, if_pos he]

/-- C8: `find_partition_by_type` and `find_partition_by_name` scan the table
once and return the unique matching entry; they fail with `PartitionNotFound`
when zero entries match, with `PartitionFoundTwice` as soon as a second
matching entry is encountered (whatever follows it), and propagate an
underlying table-read failure of an entry as a storage error. They are pure
functions of the table and perform no writes. -/
theorem find_partition_contract (es pre mid : List PartitionEntry)
    (tail : List (Except Unit PartitionEntry)) (e1 e2 : PartitionEntry)
    (typ : PartitionType) (nm : String) :
    ((∀ e ∈ es, e.type_ ≠ typ) →
      find_partition_by_type (es.map .ok) typ = .error .partitionNotFound) ∧
    ((∀ e ∈ pre, e.type_ ≠ typ) → (∀ e ∈ mid, e.type_ ≠ typ) → e1.type_ = typ →
      find_partition_by_type ((pre ++ e1 :: mid).map .ok) typ = .ok e1) ∧
    ((∀ e ∈ pre, e.type_ ≠ typ) → (∀ e ∈ mid, e.type_ ≠ typ) →
      e1.type_ = typ → e2.type_ = typ →
      find_partition_by_type ((pre ++ e1 :: mid).map .ok ++ .ok e2 :: tail) typ =
        .error .partitionFoundTwice) ∧
    ((∀ e ∈ pre, e.type_ ≠ typ) →
      find_partition_by_type (pre.map .ok ++ .error () :: tail) typ =
        .error .norFlashOpError) ∧
    ((∀ e ∈ es, e.name ≠ nm) →
      find_partition_by_name (es.map .ok) nm = .error .partitionNotFound) ∧
    ((∀ e ∈ pre, e.name ≠ nm) → (∀ e ∈ mid, e.name ≠ nm) → e1.name = nm →
      find_partition_by_name ((pre ++ e1 :: mid).map .ok) nm = .ok e1) ∧
    ((∀ e ∈ pre, e.name ≠ nm) → (∀ e ∈ mid, e.name ≠ nm) →
      e1.name = nm → e2.name = nm →
      find_partition_by_name ((pre ++ e1 :: mid).map .ok ++ .ok e2 :: tail) nm =
        .error .partitionFoundTwice) ∧
    ((∀ e ∈ pre, e.name ≠ nm) →
      find_partition_by_name (pre.map .ok ++ .error () :: tail) nm =
        .error .norFlashOpError) := by
  have key : ∀ sel : PartitionEntry → Bool,
      ((∀ e ∈ es, sel e = false) →
        findPartitionGo sel (es.map .ok) none = .error .partitionNotFound) ∧
      ((∀ e ∈ pre, sel e = false) → (∀ e ∈ mid, sel e = false) → sel e1 = true →
        findPartitionGo sel ((pre ++ e1 :: mid).map .ok) none = .ok e1) ∧
      ((∀ e ∈ pre, sel e = false) → (∀ e ∈ mid, sel e = false) →
        sel e1 = true → sel e2 = true →
        findPartitionGo sel ((pre ++ e1 :: mid).map .ok ++ .ok e2 :: tail) none =
          .error .partitionFoundTwice) ∧
      ((∀ e ∈ pre, sel e = false) →
        findPartitionGo sel (pre.map .ok ++ .error () :: tail) none =
          .error .norFlashOpError) := by
    intro sel
    refine ⟨fun h => ?_, fun hp hm h1 => ?_, fun hp hm h1 h2 => ?_, fun hp => ?_⟩
    · have := findGo_skip sel es [] none h
      simpa using this
    · rw [List.map_append, List.map_cons, findGo_skip sel pre _ none hp,
        findGo_hit sel e1 _ h1]
      have := findGo_skip sel mid [] (some e1) hm
      simpa using this
    · rw [List.map_append, List.map_cons, List.append_assoc, List.cons_append,
        findGo_skip sel pre _ none hp, findGo_hit sel e1 _ h1,
        findGo_skip sel mid _ (some e1) hm, findGo_twice sel e2 e1 tail h2]
    · rw [findGo_skip sel pre _ none hp, findGo_err]
  refine ⟨?_, ?_, ?_, ?_, ?_, ?_, ?_, ?_⟩
  · exact fun h => (key _).1 fun e he => by simpa using h e he
  · exact fun hp hm h1 => (key _).2.1 (fun e he => by simpa using hp e he)
      (fun e he => by simpa using hm e he) (by simpa using h1)
  · exact fun hp hm h1 h2 => (key _).2.2.1 (fun e he => by simpa using hp e he)
      (fun e he => by simpa using hm e he) (by simpa using h1) (by simpa using h2)
  · exact fun hp => (key _).2.2.2 fun e he => by simpa using hp e he
  · exact fun h => (key _).1 fun e he => by simpa using h e he
  · exact fun hp hm h1 => (key _).2.1 (fun e he => by simpa using hp e he)
      (fun e he => by simpa using hm e he) (by simpa using h1)
  · exact fun hp hm h1 h2 => (key _).2.2.1 (fun e he => by simpa using hp e he)
      (fun e he => by simpa using hm e he) (by simpa using h1) (by simpa using h2)
  · exact fun hp => (key _).2.2.2 fun e he => by simpa using hp e he

/-! ## Lemmas about the metadata store -/

theorem write_ota_data_ok {f : Flash} {d : EspOTAData} {p : PartitionEntry}
    (hp : find_partition_by_type f.table .dataOta = .ok p)
    (hok : (write_ota_data f d).res = .ok ()) :
    (write_ota_data f d).flash.table = f.table ∧
    (write_ota_data f d).flash.mem = writeMem (eraseMem (writeMem (eraseMem f.mem
      p.offset (p.offset + SECTOR_SIZE)) p.offset d.encode)
      (p.offset + SECTOR_SIZE) (p.offset + 2 * SECTOR_SIZE))
      (p.offset + SECTOR_SIZE) d.encode ∧
    (write_ota_data f d).ops = [.erase p.offset (p.offset + SECTOR_SIZE),
      .write p.offset d.encode,
      .erase (p.offset + SECTOR_SIZE) (p.offset + 2 * SECTOR_SIZE),
      .write (p.offset + SECTOR_SIZE) d.encode] := by
  unfold write_ota_data at hok ⊢
  rw [hp] at hok ⊢
  simp only [flashErase, flashWrite] at hok ⊢
  split at hok
  · simp at hok
  · rename_i f1 h1
    split at h1
    · injection h1 with h1
      subst h1
      split at hok
      · simp at hok
      · rename_i f2 h2
        split at h2
        · injection h2 with h2
          subst h2
          split at hok
          · simp at hok
          · rename_i f3 h3
            split at h3
            · injection h3 with h3
              subst h3
              split at hok
              · simp at hok
              · rename_i f4 h4
                split at h4
                · injection h4 with h4
                  subst h4
                  exact ⟨rfl, rfl, rfl⟩
                · simp at h4
            · simp at h3
        · simp at h2
    · simp at h1

theorem write_ota_data_memA {f : Flash} {d : EspOTAData} {p : PartitionEntry}
    (hp : find_partition_by_type f.table .dataOta = .ok p)
    (hok : (write_ota_data f d).res = .ok ()) :
    ∀ i < 32, (write_ota_data f d).flash.mem (p.offset + i) = d.encode.getD i 0 := by
  intro i hi
  rw [(write_ota_data_ok hp hok).2.1]
  have hlen : d.encode.length = 32 := encode_length d
  have hS : SECTOR_SIZE = 4096 := rfl
  rw [writeMem, if_neg (by omega), eraseMem, if_neg (by omega),
    writeMem, if_pos (by omega)]
  simp

theorem write_ota_data_memB {f : Flash} {d : EspOTAData} {p : PartitionEntry}
    (hp : find_partition_by_type f.table .dataOta = .ok p)
    (hok : (write_ota_data f d).res = .ok ()) :
    ∀ i < 32, (write_ota_data f d).flash.mem (p.offset + SECTOR_SIZE + i) =
      d.encode.getD i 0 := by
  intro i hi
  rw [(write_ota_data_ok hp hok).2.1]
  have hlen : d.encode.length = 32 := encode_length d
  rw [writeMem, if_pos (by omega)]
  simp

theorem readBytes_of_encode {fl : Flash} {d : EspOTAData} {off : Nat}
    (h : ∀ i < 32, fl.mem (off + i) = d.encode.getD i 0) :
    readBytes fl off 32 = d.encode := by
  apply List.ext_getElem
  · simp [readBytes, encode_length]
  · intro i hi1 hi2
    have hi : i < 32 := by simpa [readBytes] using hi1
    simp only [readBytes, List.getElem_map, List.getElem_range]
    rw [h i hi, List.getD_eq_getElem d.encode 0 hi2]
    exact Nat.mod_eq_of_lt (mem_encode_lt d _ (List.getElem_mem hi2))

/-- C1: after every successful `write_ota_data(storage, record)` call, the
32-byte record at the metadata partition's base offset (copy A) and the one
a sector (0x1000 bytes) further (copy B) are bit-identical, and both decode
and pass integrity validation via `EspOTAData.tryFrom`, yielding the written
record. -/
theorem write_ota_data_redundant (f : Flash) (d : EspOTAData) (p : PartitionEntry)
    (hWF : d.WF) (hp : find_partition_by_type f.table .dataOta = .ok p)
    (hok : (write_ota_data f d).res = .ok ()) :
    (∀ i < 32, (write_ota_data f d).flash.mem (p.offset + i) =
      (write_ota_data f d).flash.mem (p.offset + SECTOR_SIZE + i)) ∧
    EspOTAData.tryFrom (readBytes (write_ota_data f d).flash p.offset 32) =
      some d ∧
    EspOTAData.tryFrom
      (readBytes (write_ota_data f d).flash (p.offset + SECTOR_SIZE) 32) =
      some d := by
  have hA := write_ota_data_memA hp hok
  have hB := write_ota_data_memB hp hok
  refine ⟨fun i hi => (hA i hi).trans (hB i hi).symm, ?_, ?_⟩
  · rw [readBytes_of_encode hA, tryFrom_encode hWF]
  · rw [readBytes_of_encode hB, tryFrom_encode hWF]

/-- Witness for C1: the redundancy invariant on a concrete flash and record. -/
theorem write_ota_data_redundant_witness :
    (∀ i < 32, (write_ota_data blankFlash sampleRecord).flash.mem
        (sampleMeta.offset + i) =
      (write_ota_data blankFlash sampleRecord).flash.mem
        (sampleMeta.offset + SECTOR_SIZE + i)) ∧
    EspOTAData.tryFrom
      (readBytes (write_ota_data blankFlash sampleRecord).flash
        sampleMeta.offset 32) = some sampleRecord ∧
    EspOTAData.tryFrom
      (readBytes (write_ota_data blankFlash sampleRecord).flash
        (sampleMeta.offset + SECTOR_SIZE) 32) = some sampleRecord :=
  write_ota_data_redundant blankFlash sampleRecord sampleMeta (by decide) rfl rfl

/-- C2: `read_ota_data` returns the decoded record from copy A when copy A
decodes and passes its integrity check, otherwise the decoded record from
copy B when copy B passes; when neither copy validates it fails with
`OtaDataCorrupt`. It performs no writes or erases (flash state unchanged,
only read operations in the trace), and a storage read failure on either
copy is propagated as a storage error rather than `OtaDataCorrupt`. -/
theorem read_ota_data_contract (f : Flash) (p : PartitionEntry)
    (hp : find_partition_by_type f.table .dataOta = .ok p) :
    (read_ota_data f).flash = f ∧
    ((read_ota_data f).ops = [.read p.offset 32] ∨
      (read_ota_data f).ops =
        [.read p.offset 32, .read (p.offset + SECTOR_SIZE) 32]) ∧
    (f.readOk p.offset 32 = false →
      (read_ota_data f).res = .error .norFlashOpError) ∧
    (f.readOk p.offset 32 = true → ∀ dd,
      EspOTAData.tryFrom (readBytes f p.offset 32) = some dd →
      (read_ota_data f).res = .ok dd) ∧
    (f.readOk p.offset 32 = true →
      EspOTAData.tryFrom (readBytes f p.offset 32) = none →
      f.readOk (p.offset + SECTOR_SIZE) 32 = false →
      (read_ota_data f).res = .error .norFlashOpError) ∧
    (f.readOk p.offset 32 = true →
      EspOTAData.tryFrom (readBytes f p.offset 32) = none →
      f.readOk (p.offset + SECTOR_SIZE) 32 = true → ∀ dd,
      EspOTAData.tryFrom (readBytes f (p.offset + SECTOR_SIZE) 32) = some dd →
      (read_ota_data f).res = .ok dd) ∧
    (f.readOk p.offset 32 = true →
      EspOTAData.tryFrom (readBytes f p.offset 32) = none →
      f.readOk (p.offset + SECTOR_SIZE) 32 = true →
      EspOTAData.tryFrom (readBytes f (p.offset + SECTOR_SIZE) 32) = none →
      (read_ota_data f).res = .error .otaDataCorrupt) := by
  unfold read_ota_data
  rw [hp]
  simp only [flashRead]
  by_cases cA : f.readOk p.offset 32
  · rw [if_pos cA]
    cases hA : EspOTAData.tryFrom (readBytes f p.offset 32) with
    | some dA =>
      refine ⟨?_, ?_, ?_, ?_, ?_, ?_, ?_⟩ <;> intros <;> simp_all [FlashOp.isRead]
    | none =>
      by_cases cB : f.readOk (p.offset + SECTOR_SIZE) 32
      · rw [if_pos cB]
        cases hB : EspOTAData.tryFrom (readBytes f (p.offset + SECTOR_SIZE) 32) with
        | some dB =>
          refine ⟨?_, ?_, ?_, ?_, ?_, ?_, ?_⟩ <;> intros <;> simp_all [FlashOp.isRead]
        | none =>
          refine ⟨?_, ?_, ?_, ?_, ?_, ?_, ?_⟩ <;> intros <;> simp_all [FlashOp.isRead]
      · rw [if_neg cB]
        refine ⟨?_, ?_, ?_, ?_, ?_, ?_, ?_⟩ <;> intros <;> simp_all [FlashOp.isRead]
  · rw [if_neg cA]
    refine ⟨rfl, ?_, ?_, ?_, ?_, ?_, ?_⟩ <;> simp_all [FlashOp.isRead]

/-- Witness for C2: reading back the concrete flash returns the record that
was stored in copy A. -/
theorem read_ota_data_contract_witness :
    (read_ota_data sampleFlash).flash = sampleFlash ∧
    ((read_ota_data sampleFlash).ops = [.read sampleMeta.offset 32] ∨
      (read_ota_data sampleFlash).ops =
        [.read sampleMeta.offset 32,
          .read (sampleMeta.offset + SECTOR_SIZE) 32]) ∧
    (sampleFlash.readOk sampleMeta.offset 32 = false →
      (read_ota_data sampleFlash).res = .error .norFlashOpError) ∧
    (sampleFlash.readOk sampleMeta.offset 32 = true → ∀ dd,
      EspOTAData.tryFrom (readBytes sampleFlash sampleMeta.offset 32) = some dd →
      (read_ota_data sampleFlash).res = .ok dd) ∧
    (sampleFlash.readOk sampleMeta.offset 32 = true →
      EspOTAData.tryFrom (readBytes sampleFlash sampleMeta.offset 32) = none →
      sampleFlash.readOk (sampleMeta.offset + SECTOR_SIZE) 32 = false →
      (read_ota_data sampleFlash).res = .error .norFlashOpError) ∧
    (sampleFlash.readOk sampleMeta.offset 32 = true →
      EspOTAData.tryFrom (readBytes sampleFlash sampleMeta.offset 32) = none →
      sampleFlash.readOk (sampleMeta.offset + SECTOR_SIZE) 32 = true → ∀ dd,
      EspOTAData.tryFrom
        (readBytes sampleFlash (sampleMeta.offset + SECTOR_SIZE) 32) = some dd →
      (read_ota_data sampleFlash).res = .ok dd) ∧
    (sampleFlash.readOk sampleMeta.offset 32 = true →
      EspOTAData.tryFrom (readBytes sampleFlash sampleMeta.offset 32) = none →
      sampleFlash.readOk (sampleMeta.offset + SECTOR_SIZE) 32 = true →
      EspOTAData.tryFrom
        (readBytes sampleFlash (sampleMeta.offset + SECTOR_SIZE) 32) = none →
      (read_ota_data sampleFlash).res = .error .otaDataCorrupt) :=
  read_ota_data_contract sampleFlash sampleMeta rfl

theorem read_ota_data_flash (f : Flash) : (read_ota_data f).flash = f := by
  unfold read_ota_data
  repeat first | rfl | split

theorem getD_map_mod_lt (l : List Nat) (i : Nat) :
    (l.map (· % 256)).getD i 0 < 256 := by
  rcases Nat.lt_or_ge i (l.map (· % 256)).length with hi | hi
  · rw [List.getD_eq_getElem _ _ hi, List.getElem_map]
    exact Nat.mod_lt _ (by norm_num)
  · rw [List.getD_eq_default _ _ hi]
    norm_num

theorem tryFrom_seq_lt {buf : List Nat} {d : EspOTAData}
    (h : EspOTAData.tryFrom buf = some d) : d.seq < U32MOD := by
  unfold EspOTAData.tryFrom at h
  dsimp only at h
  split at h
  · split at h
    · injection h with h
      subst h
      have hb : ∀ i, ((buf.map (· % 256)).take 4).getD i 0 < 256 := by
        intro i
        rw [← List.map_take]
        exact getD_map_mod_lt _ i
      have h0 := hb 0
      have h1 := hb 1
      have h2 := hb 2
      have h3 := hb 3
      simp only [de32, U32MOD_eq]
      omega
    · exact absurd h (by simp)
  · exact absurd h (by simp)

theorem read_ota_data_ok_seq_lt {f : Flash} {d : EspOTAData}
    (h : (read_ota_data f).res = .ok d) : d.seq < U32MOD := by
  unfold read_ota_data at h
  split at h
  · simp at h
  · split at h
    · simp at h
    · split at h
      · rename_i heq
        simp only [Except.ok.injEq] at h
        subst h
        exact tryFrom_seq_lt heq
      · split at h
        · simp at h
        · split at h
          · rename_i heq
            simp only [Except.ok.injEq] at h
            subst h
            exact tryFrom_seq_lt heq
          · simp at h

/-- C3: `ota_accept` and `ota_reject` implement exactly the §4.3 transition
tables. Accept: from `PendingVerify`, `New` or `Undefined` it persists the
same record with state `Valid` (sequence and reserved field unchanged); from
`Invalid` or `Aborted` it persists state `Valid` and the sequence decremented
by one (wrapping `u32` decrement, which is exactly `seq - 1` whenever
`1 ≤ seq`); from `Valid` it writes nothing. Reject: from `PendingVerify`,
`New` or `Undefined` it persists the same record with state `Invalid`; from
`Valid`, `Invalid` or `Aborted` it writes nothing and returns success. -/
theorem ota_accept_reject_table (f : Flash) (d : EspOTAData)
    (h : (read_ota_data f).res = .ok d) :
    (d.state = .pendingVerify ∨ d.state = .new ∨ d.state = .undefined →
      ota_accept f = andThen (read_ota_data f).ops
        (write_ota_data f { d with state := .valid }) ∧
      ota_reject f = andThen (read_ota_data f).ops
        (write_ota_data f { d with state := .invalid })) ∧
    (d.state = .invalid ∨ d.state = .aborted →
      ota_accept f = andThen (read_ota_data f).ops
        (write_ota_data f { d with state := .valid, seq := u32sub1 d.seq }) ∧
      ota_reject f = ⟨.ok (), f, (read_ota_data f).ops⟩) ∧
    (d.state = .valid →
      ota_accept f = ⟨.ok (), f, (read_ota_data f).ops⟩ ∧
      ota_reject f = ⟨.ok (), f, (read_ota_data f).ops⟩) ∧
    (1 ≤ d.seq → u32sub1 d.seq = d.seq - 1) := by
  refine ⟨?_, ?_, ?_, ?_⟩
  · intro hst
    constructor
    · simp only [ota_accept, h, read_ota_data_flash]
      rcases hst with h1 | h1 | h1 <;> rw [h1]
    · simp only [ota_reject, h, read_ota_data_flash]
      rcases hst with h1 | h1 | h1 <;> rw [h1]
  · intro hst
    constructor
    · simp only [ota_accept, h, read_ota_data_flash]
      rcases hst with h1 | h1 <;> rw [h1]
    · simp only [ota_reject, h, read_ota_data_flash]
      rcases hst with h1 | h1 <;> rw [h1]
  · intro hst
    constructor
    · simp only [ota_accept, h, read_ota_data_flash]
      rw [hst]
    · simp only [ota_reject, h, read_ota_data_flash]
      rw [hst]
  · intro h1
    have h2 := read_ota_data_ok_seq_lt h
    rw [U32MOD_eq] at h2
    simp only [u32sub1, U32MOD_eq]
    omega

/-- Witness for C3: on the concrete flash storing an accepted (`Valid`)
record, both operations are no-ops, and the wrapping decrement agrees with
plain subtraction at the stored sequence 5. -/
theorem ota_accept_reject_table_witness :
    ota_accept sampleFlash = ⟨.ok (), sampleFlash, (read_ota_data sampleFlash).ops⟩ ∧
    ota_reject sampleFlash = ⟨.ok (), sampleFlash, (read_ota_data sampleFlash).ops⟩ ∧
    u32sub1 sampleRecord.seq = sampleRecord.seq - 1 := by
  obtain ⟨-, -, h3, h4⟩ := ota_accept_reject_table sampleFlash sampleRecord rfl
  obtain ⟨a, b⟩ := h3 rfl
  exact ⟨a, b, h4 (by decide)⟩

theorem read_ota_data_ops_reads (f : Flash) :
    ∀ op ∈ (read_ota_data f).ops, op.isRead = true := by
  unfold read_ota_data
  repeat' split
  all_goals intro op hop
  all_goals simp only [List.mem_cons, List.not_mem_nil, or_false] at hop
  all_goals first
    | (rcases hop with h | h <;> subst h <;> rfl)
    | (subst hop; rfl)

/-- C9: `ota_begin` test-and-sets the process-wide `IS_UPDATING` flag as its
first action: when the flag is already set it fails with `AlreadyUpdating`
without any flash access (no operations, flash unchanged). No code path
clears the flag — every `ota_begin` call leaves it set whether it succeeds
or fails, so after the first invocation every subsequent call fails with
`AlreadyUpdating`. -/
theorem ota_begin_guard_contract :
    (∀ (f : Flash) (rdr : ImageStream),
      ota_begin true f rdr = ⟨true, .error .alreadyUpdating, f, [], []⟩) ∧
    (∀ (flag : Bool) (f : Flash) (rdr : ImageStream),
      (ota_begin flag f rdr).flag = true) := by
  constructor
  · intro f rdr
    rfl
  · intro flag f rdr
    cases flag
    · unfold ota_begin beginThen beginWritePhase
      dsimp only
      repeat' first | rfl | split
    · rfl

/-- Witness for C9: the guard behaviour on a concrete flash and stream. -/
theorem ota_begin_guard_contract_witness :
    ota_begin true blankFlash [] = ⟨true, .error .alreadyUpdating, blankFlash, [], []⟩ ∧
    (ota_begin false blankFlash []).flag = true :=
  ⟨ota_begin_guard_contract.1 blankFlash [],
    ota_begin_guard_contract.2 false blankFlash []⟩

/-- C4: when the stored record's state is not `Valid`, `ota_begin` fails with
`PendingVerify`, the flash is unchanged, and the only storage accesses
performed are reads (the metadata reads; no erase, no write). -/
theorem ota_begin_pending_guard (f : Flash) (rdr : ImageStream) (d : EspOTAData)
    (h : (read_ota_data f).res = .ok d) (hnv : d.is_valid = false) :
    ota_begin false f rdr =
      ⟨true, .error .pendingVerify, f, (read_ota_data f).ops, []⟩ ∧
    ∀ op ∈ (ota_begin false f rdr).ops, op.isRead = true := by
  have hmain : ota_begin false f rdr =
      ⟨true, .error .pendingVerify, f, (read_ota_data f).ops, []⟩ := by
    unfold ota_begin
    simp only [Bool.false_eq_true, if_false, h, read_ota_data_flash]
    rw [if_pos hnv]
  refine ⟨hmain, ?_⟩
  rw [hmain]
  exact read_ota_data_ops_reads f

/-- C6: slot selection is `(sequence - 1) % 2` everywhere. For stored
sequences 1, 2, 3, 4 the resolved slot is 0, 1, 0, 1; `get_booted_partition`
resolves the app partition of slot `(seq - 1) % 2`; `ota_begin` locates (and
then writes) the app partition of slot `((seq + 1) - 1) % 2`; and the two
slots always differ, giving ping-pong alternation between exactly two
application partitions. -/
theorem slot_alternation (f : Flash) (rdr : ImageStream) (d : EspOTAData)
    (h : (read_ota_data f).res = .ok d) (hv : d.is_valid = true) :
    (u32sub1 1 % 2 = 0 ∧ u32sub1 2 % 2 = 1 ∧ u32sub1 3 % 2 = 0 ∧
      u32sub1 4 % 2 = 1) ∧
    get_booted_partition f =
      ⟨find_partition_by_type f.table (.app (u32sub1 d.seq % 2)), f,
        (read_ota_data f).ops⟩ ∧
    ota_begin false f rdr = (match find_partition_by_type f.table
        (.app (u32sub1 (u32add1 d.seq) % 2)) with
      | .error e => ⟨true, .error (.internalError e), f, (read_ota_data f).ops, []⟩
      | .ok app => beginThen (read_ota_data f).ops
          (beginWritePhase f rdr app (u32add1 d.seq))) ∧
    (∀ n : Nat, u32sub1 (u32add1 n) % 2 ≠ u32sub1 n % 2) := by
  refine ⟨by decide, ?_, ?_, ?_⟩
  · unfold get_booted_partition
    simp only [h, read_ota_data_flash]
  · unfold ota_begin
    simp only [Bool.false_eq_true, if_false, h, read_ota_data_flash]
    rw [if_neg (by simp [hv])]
  · intro n
    simp only [u32sub1, u32add1, U32MOD_eq]
    omega

/-- Witness for C4: beginning an update over a pending-verify record fails
with `PendingVerify` after only reads. -/
theorem ota_begin_pending_guard_witness :
    ota_begin false pendingFlash [] =
      ⟨true, .error .pendingVerify, pendingFlash,
        (read_ota_data pendingFlash).ops, []⟩ ∧
    ∀ op ∈ (ota_begin false pendingFlash []).ops, op.isRead = true :=
  ota_begin_pending_guard pendingFlash [] pendingRecord rfl rfl

/-- Witness for C6: slot alternation evaluated on the concrete flash whose
stored sequence is 5. -/
theorem slot_alternation_witness :
    (u32sub1 1 % 2 = 0 ∧ u32sub1 2 % 2 = 1 ∧ u32sub1 3 % 2 = 0 ∧
      u32sub1 4 % 2 = 1) ∧
    get_booted_partition sampleFlash =
      ⟨find_partition_by_type sampleFlash.table
        (.app (u32sub1 sampleRecord.seq % 2)), sampleFlash,
        (read_ota_data sampleFlash).ops⟩ ∧
    ota_begin false sampleFlash [] = (match find_partition_by_type
        sampleFlash.table (.app (u32sub1 (u32add1 sampleRecord.seq) % 2)) with
      | .error e => ⟨true, .error (.internalError e), sampleFlash,
          (read_ota_data sampleFlash).ops, []⟩
      | .ok app => beginThen (read_ota_data sampleFlash).ops
          (beginWritePhase sampleFlash [] app (u32add1 sampleRecord.seq))) ∧
    (∀ n : Nat, u32sub1 (u32add1 n) % 2 ≠ u32sub1 n % 2) :=
  slot_alternation sampleFlash [] sampleRecord rfl rfl

theorem copyLoop_ops_char (n : Nat) :
    ∀ (f : Flash) (rdr : ImageStream) (app : PartitionEntry) (dw : Nat),
    rdr.length ≤ n →
    ∀ op ∈ (copyLoop f rdr app dw).ops, ∃ off data, op = .write off data ∧
      app.offset ≤ off ∧ off + data.length ≤ app.offset + app.size := by
  induction n using Nat.strong_induction_on with
  | _ n ih =>
    intro f rdr app dw hlen op hop
    unfold copyLoop at hop
    split at hop
    · simp at hop
    · rename_i buf done rest hfill
      split at hop
      · simp at hop
      · rename_i hle
        split at hop
        · simp only [List.mem_cons, List.not_mem_nil, or_false] at hop
          subst hop
          exact ⟨app.offset + dw, buf, rfl, by omega, by omega⟩
        · rename_i f2 hw
          split at hop
          · simp only [List.mem_cons, List.not_mem_nil, or_false] at hop
            subst hop
            exact ⟨app.offset + dw, buf, rfl, by omega, by omega⟩
          · rename_i hdone
            simp only [List.mem_cons] at hop
            rcases hop with hop | hop
            · subst hop
              exact ⟨app.offset + dw, buf, rfl, by omega, by omega⟩
            · have hrest : rest.length < rdr.length :=
                fillBuffer_rest_length hfill (by simp [SECTOR_SIZE])
                  (by simpa using hdone)
              exact ih rest.length (by omega) f2 rest app (dw + buf.length)
                (by omega) op hop

/-- C5: in `ota_begin`'s copy loop, an iteration fails with `OutOfSpace`
exactly when the bytes already written plus the freshly filled (or partial)
buffer would exceed the target partition's size — and then nothing of that
buffer is written (no flash operation at all); otherwise the buffer write is
issued at the correct offset. Moreover every write the loop ever issues lies
entirely within the target partition, so no write goes beyond its size. -/
theorem copyLoop_space (f : Flash) (rdr : ImageStream) (app : PartitionEntry)
    (dw : Nat) (buf : List Nat) (done : Bool) (rest : ImageStream)
    (h : fillBuffer rdr [] = .ok (buf, done, rest)) :
    (dw + buf.length > app.size →
      copyLoop f rdr app dw = ⟨true, .error .outOfSpace, f, [], []⟩) ∧
    (dw + buf.length ≤ app.size →
      (copyLoop f rdr app dw).ops.head? = some (.write (app.offset + dw) buf)) ∧
    (∀ op ∈ (copyLoop f rdr app dw).ops, ∀ off data, op = .write off data →
      app.offset ≤ off ∧ off + data.length ≤ app.offset + app.size) := by
  refine ⟨?_, ?_, ?_⟩
  · intro hover
    unfold copyLoop
    rw [h]
    simp only [gt_iff_lt, if_pos hover]
  · intro hle
    unfold copyLoop
    rw [h]
    dsimp only
    rw [if_neg (by omega)]
    cases hw : flashWrite f (app.offset + dw) buf
    · simp
    · split <;> first | (split <;> simp) | simp
  · intro op hop off data heq
    obtain ⟨off2, data2, heq2, hb1, hb2⟩ :=
      copyLoop_ops_char rdr.length f rdr app dw (le_refl _) op hop
    rw [heq] at heq2
    injection heq2 with h1 h2
    subst h1
    subst h2
    exact ⟨hb1, hb2⟩

/-- Witness for C5: a 10-byte partition with an 11-byte image fails with
`OutOfSpace` and nothing written; a 5-byte image is written as the first
operation; all issued writes stay inside the partition. -/
theorem copyLoop_space_witness :
    copyLoop blankFlash [.ok (List.replicate 11 7)] smallApp 0 =
      ⟨true, .error .outOfSpace, blankFlash, [], []⟩ ∧
    (copyLoop blankFlash [.ok (List.replicate 5 7)] smallApp 0).ops.head? =
      some (.write (smallApp.offset + 0) (List.replicate 5 7)) ∧
    ∀ op ∈ (copyLoop blankFlash [.ok (List.replicate 11 7)] smallApp 0).ops,
      ∀ off data, op = .write off data →
      smallApp.offset ≤ off ∧ off + data.length ≤ smallApp.offset + smallApp.size := by
  refine ⟨?_, ?_, ?_⟩
  · exact (copyLoop_space blankFlash [.ok (List.replicate 11 7)] smallApp 0
      (List.replicate 11 7) true [] (by rfl)).1 (by decide)
  · exact (copyLoop_space blankFlash [.ok (List.replicate 5 7)] smallApp 0
      (List.replicate 5 7) true [] (by rfl)).2.1 (by decide)
  · exact (copyLoop_space blankFlash [.ok (List.replicate 11 7)] smallApp 0
      (List.replicate 11 7) true [] (by rfl)).2.2

theorem write_ota_data_ok_find {f : Flash} {d : EspOTAData}
    (hok : (write_ota_data f d).res = .ok ()) :
    ∃ p, find_partition_by_type f.table .dataOta = .ok p := by
  unfold write_ota_data at hok
  split at hok
  · simp at hok
  · rename_i p hp
    exact ⟨p, hp⟩

/-- C7: when `ota_begin` returns success, the run decomposes as: metadata
reads, the target-partition erase, the image-data writes of the copy loop,
and — strictly after the final image write, as the last storage operations —
the persisting of the record `EspOTAData.new((seq + 1), [0xFF; 20])`: its
sequence is the previously stored sequence plus one (wrapping `u32`
increment, equal to `seq + 1` whenever `seq + 1 < 2^32`), its state the
not-yet-verified sentinel, its reserved field twenty `0xFF` bytes. Moreover
neither `ota_accept` nor `ota_reject` ever persists an incremented sequence
(they write the same sequence or its wrapping decrement), so no other
operation in the library increases the sequence number. -/
theorem ota_begin_success_record (flag : Bool) (f : Flash) (rdr : ImageStream)
    (h : (ota_begin flag f rdr).res = .ok ()) :
    (∃ d app f1 p,
      flag = false ∧
      (read_ota_data f).res = .ok d ∧
      d.is_valid = true ∧
      find_partition_by_type f.table
        (.app (u32sub1 (u32add1 d.seq) % 2)) = .ok app ∧
      flashErase f app.offset (app.offset + app.size) = .ok f1 ∧
      (copyLoop f1 rdr app 0).res = .ok () ∧
      (∀ op ∈ (copyLoop f1 rdr app 0).ops, ∃ off data, op = .write off data) ∧
      find_partition_by_type (copyLoop f1 rdr app 0).flash.table .dataOta =
        .ok p ∧
      (write_ota_data (copyLoop f1 rdr app 0).flash
        (EspOTAData.new (u32add1 d.seq) (List.replicate 20 0xFF))).res =
        .ok () ∧
      (ota_begin flag f rdr).ops = (read_ota_data f).ops ++
        .erase app.offset (app.offset + app.size) ::
        ((copyLoop f1 rdr app 0).ops ++
          [.erase p.offset (p.offset + SECTOR_SIZE),
            .write p.offset (EspOTAData.new (u32add1 d.seq)
              (List.replicate 20 0xFF)).encode,
            .erase (p.offset + SECTOR_SIZE) (p.offset + 2 * SECTOR_SIZE),
            .write (p.offset + SECTOR_SIZE) (EspOTAData.new (u32add1 d.seq)
              (List.replicate 20 0xFF)).encode])) ∧
    (∀ n, n + 1 < U32MOD → u32add1 n = n + 1) ∧
    (∀ (g : Flash) (e : EspOTAData), (read_ota_data g).res = .ok e →
      ota_accept g = ⟨.ok (), g, (read_ota_data g).ops⟩ ∨
      ∃ r, ota_accept g = andThen (read_ota_data g).ops (write_ota_data g r) ∧
        (r.seq = e.seq ∨ r.seq = u32sub1 e.seq)) ∧
    (∀ (g : Flash) (e : EspOTAData), (read_ota_data g).res = .ok e →
      ota_reject g = ⟨.ok (), g, (read_ota_data g).ops⟩ ∨
      ∃ r, ota_reject g = andThen (read_ota_data g).ops (write_ota_data g r) ∧
        r.seq = e.seq) := by
  refine ⟨?_, ?_, ?_, ?_⟩
  · cases flag with
    | true => simp [ota_begin] at h
    | false =>
      unfold ota_begin at h
      simp only [Bool.false_eq_true, if_false] at h
      rw [read_ota_data_flash] at h
      try dsimp only at h
      split at h
      · simp at h
      · rename_i d hd
        split at h
        · simp at h
        · rename_i hval
          split at h
          · simp at h
          · rename_i app hfind
            simp only [beginThen] at h
            unfold beginWritePhase at h
            try dsimp only at h
            split at h
            · simp at h
            · rename_i f1 herase
              split at h
              · simp at h
              · rename_i u hcp
                split at h
                · simp at h
                · rename_i u2 hwr
                  cases u
                  cases u2
                  have hval' : d.is_valid = true := by
                    revert hval
                    cases d.is_valid <;> simp
                  obtain ⟨p, hp⟩ := write_ota_data_ok_find hwr
                  have hrun : ota_begin false f rdr = ⟨true, .ok (),
                      (write_ota_data (copyLoop f1 rdr app 0).flash
                        (EspOTAData.new (u32add1 d.seq)
                          (List.replicate 20 0xFF))).flash,
                      (read_ota_data f).ops ++
                        .erase app.offset (app.offset + app.size) ::
                        ((copyLoop f1 rdr app 0).ops ++
                          (write_ota_data (copyLoop f1 rdr app 0).flash
                            (EspOTAData.new (u32add1 d.seq)
                              (List.replicate 20 0xFF))).ops),
                      (copyLoop f1 rdr app 0).progress⟩ := by
                    unfold ota_begin
                    simp only [Bool.false_eq_true, if_false]
                    rw [read_ota_data_flash]
                    try dsimp only
                    rw [hd]
                    try dsimp only
                    rw [if_neg hval]
                    rw [hfind]
                    simp only [beginThen]
                    unfold beginWritePhase
                    try dsimp only
                    rw [herase]
                    try dsimp only
                    rw [hcp]
                    try dsimp only
                    rw [hwr]
                  refine ⟨d, app, f1, p, rfl, hd, hval', hfind, herase, hcp,
                    ?_, hp, hwr, ?_⟩
                  · intro op hop
                    obtain ⟨off, data, heq, -, -⟩ := copyLoop_ops_char
                      rdr.length f1 rdr app 0 (le_refl _) op hop
                    exact ⟨off, data, heq⟩
                  · rw [hrun, (write_ota_data_ok hp hwr).2.2]
  · intro n hn
    exact Nat.mod_eq_of_lt hn
  · intro g e he
    obtain ⟨sq, st, rs⟩ := e
    unfold ota_accept
    simp only [he, read_ota_data_flash]
    cases st
    case undefined => exact Or.inr ⟨_, rfl, Or.inl rfl⟩
    case new => exact Or.inr ⟨_, rfl, Or.inl rfl⟩
    case pendingVerify => exact Or.inr ⟨_, rfl, Or.inl rfl⟩
    case valid => exact Or.inl rfl
    case invalid => exact Or.inr ⟨_, rfl, Or.inr rfl⟩
    case aborted => exact Or.inr ⟨_, rfl, Or.inr rfl⟩
  · intro g e he
    obtain ⟨sq, st, rs⟩ := e
    unfold ota_reject
    simp only [he, read_ota_data_flash]
    cases st
    case undefined => exact Or.inr ⟨_, rfl, rfl⟩
    case new => exact Or.inr ⟨_, rfl, rfl⟩
    case pendingVerify => exact Or.inr ⟨_, rfl, rfl⟩
    case valid => exact Or.inl rfl
    case invalid => exact Or.inl rfl
    case aborted => exact Or.inl rfl

/-! ### A concrete successful update run, evaluated step by step (the copy
loop is defined by well-founded recursion, so its applications are reduced
through its unfolding equation rather than by kernel reduction). -/

theorem fill_concrete : fillBuffer [.ok [1, 2, 3]] [] =
    .ok ([1, 2, 3], true, []) := rfl

theorem write_concrete : flashWrite erasedFlash (sampleApp1.offset + 0)
    [1, 2, 3] = .ok writtenFlash := rfl

theorem readres_concrete : (read_ota_data sampleFlash).res =
    .ok sampleRecord := rfl

theorem find_concrete : find_partition_by_type sampleFlash.table
    (.app (u32sub1 (u32add1 sampleRecord.seq) % 2)) = .ok sampleApp1 := rfl

theorem erase_concrete : flashErase sampleFlash sampleApp1.offset
    (sampleApp1.offset + sampleApp1.size) = .ok erasedFlash := rfl

theorem wod_concrete : (write_ota_data writtenFlash (EspOTAData.new
    (u32add1 sampleRecord.seq) (List.replicate 20 0xFF))).res = .ok () := rfl

theorem copyLoop_concrete : copyLoop erasedFlash [.ok [1, 2, 3]] sampleApp1 0 =
    ⟨true, .ok (), writtenFlash, [.write (sampleApp1.offset + 0) [1, 2, 3]],
      [0 + 3]⟩ := by
  unfold copyLoop
  rw [fill_concrete]
  dsimp only
  rw [if_neg (by decide)]
  rw [write_concrete]
  rfl

theorem ota_begin_concrete_ok :
    (ota_begin false sampleFlash [.ok [1, 2, 3]]).res = .ok () := by
  unfold ota_begin
  rw [if_neg (by decide : ¬(false = true))]
  dsimp only
  rw [read_ota_data_flash]
  rw [readres_concrete]
  dsimp only
  rw [if_neg (by decide)]
  rw [find_concrete]
  dsimp only
  rw [show ∀ (o : List FlashOp) (r : BeginResult), (beginThen o r).res = r.res
    from fun o r => rfl]
  unfold beginWritePhase
  rw [erase_concrete]
  dsimp only
  rw [copyLoop_concrete]
  dsimp only
  rw [wod_concrete]

/-- Witness for C7: a concrete successful 3-byte update run over the flash
whose stored sequence is 5. -/
theorem ota_begin_success_record_witness :
    (∃ d app f1 p,
      false = false ∧
      (read_ota_data sampleFlash).res = .ok d ∧
      d.is_valid = true ∧
      find_partition_by_type sampleFlash.table
        (.app (u32sub1 (u32add1 d.seq) % 2)) = .ok app ∧
      flashErase sampleFlash app.offset (app.offset + app.size) = .ok f1 ∧
      (copyLoop f1 [.ok [1, 2, 3]] app 0).res = .ok () ∧
      (∀ op ∈ (copyLoop f1 [.ok [1, 2, 3]] app 0).ops,
        ∃ off data, op = .write off data) ∧
      find_partition_by_type (copyLoop f1 [.ok [1, 2, 3]] app 0).flash.table
        .dataOta = .ok p ∧
      (write_ota_data (copyLoop f1 [.ok [1, 2, 3]] app 0).flash
        (EspOTAData.new (u32add1 d.seq) (List.replicate 20 0xFF))).res =
        .ok () ∧
      (ota_begin false sampleFlash [.ok [1, 2, 3]]).ops =
        (read_ota_data sampleFlash).ops ++
        .erase app.offset (app.offset + app.size) ::
        ((copyLoop f1 [.ok [1, 2, 3]] app 0).ops ++
          [.erase p.offset (p.offset + SECTOR_SIZE),
            .write p.offset (EspOTAData.new (u32add1 d.seq)
              (List.replicate 20 0xFF)).encode,
            .erase (p.offset + SECTOR_SIZE) (p.offset + 2 * SECTOR_SIZE),
            .write (p.offset + SECTOR_SIZE) (EspOTAData.new (u32add1 d.seq)
              (List.replicate 20 0xFF)).encode])) ∧
    (∀ n, n + 1 < U32MOD → u32add1 n = n + 1) ∧
    (∀ (g : Flash) (e : EspOTAData), (read_ota_data g).res = .ok e →
      ota_accept g = ⟨.ok (), g, (read_ota_data g).ops⟩ ∨
      ∃ r, ota_accept g = andThen (read_ota_data g).ops (write_ota_data g r) ∧
        (r.seq = e.seq ∨ r.seq = u32sub1 e.seq)) ∧
    (∀ (g : Flash) (e : EspOTAData), (read_ota_data g).res = .ok e →
      ota_reject g = ⟨.ok (), g, (read_ota_data g).ops⟩ ∨
      ∃ r, ota_reject g = andThen (read_ota_data g).ops (write_ota_data g r) ∧
        r.seq = e.seq) :=
  ota_begin_success_record false sampleFlash [.ok [1, 2, 3]]
    ota_begin_concrete_ok

/-- C10: neither `get_booted_partition` nor `ota_accept` guards against a
stored sequence of 0. Under the wrapping (release-mode) `u32` semantics of
the embedding, `seq - 1` wraps: `get_booted_partition` resolves slot 1 for
sequence 0, and `ota_accept` from an `Invalid` (or `Aborted`) record with
sequence 0 persists sequence `2^32 - 1`. The slot formula agrees with the
spec's plain subtraction only under the precondition `1 ≤ seq`. -/
theorem seq_zero_underflow (f : Flash) (d : EspOTAData)
    (h : (read_ota_data f).res = .ok d) :
    (d.seq = 0 → get_booted_partition f =
      ⟨find_partition_by_type f.table (.app 1), f, (read_ota_data f).ops⟩) ∧
    (d.seq = 0 → d.state = .invalid →
      ota_accept f = andThen (read_ota_data f).ops
        (write_ota_data f { d with state := .valid, seq := U32MOD - 1 })) ∧
    (∀ n, 1 ≤ n → n < U32MOD → u32sub1 n = n - 1) ∧
    u32sub1 0 = U32MOD - 1 := by
  refine ⟨?_, ?_, ?_, by rw [U32MOD_eq]; rfl⟩
  · intro hseq
    unfold get_booted_partition
    simp only [h, read_ota_data_flash, hseq]
    rw [show u32sub1 0 % 2 = 1 from rfl]
  · intro hseq hst
    unfold ota_accept
    simp only [h, read_ota_data_flash, hst]
    rw [hseq, show u32sub1 0 = U32MOD - 1 by rw [U32MOD_eq]; rfl]
  · intro n h1 h2
    rw [U32MOD_eq] at h2
    simp only [u32sub1, U32MOD_eq]
    omega

/-- Witness for C10: the wrap on the concrete flash storing an `Invalid`
record with sequence 0. -/
theorem seq_zero_underflow_witness :
    get_booted_partition zeroFlash =
      ⟨find_partition_by_type zeroFlash.table (.app 1), zeroFlash,
        (read_ota_data zeroFlash).ops⟩ ∧
    ota_accept zeroFlash = andThen (read_ota_data zeroFlash).ops
      (write_ota_data zeroFlash
        { zeroRecord with state := .valid, seq := U32MOD - 1 }) ∧
    u32sub1 5 = 4 ∧
    u32sub1 0 = U32MOD - 1 := by
  obtain ⟨a, b, c, d4⟩ := seq_zero_underflow zeroFlash zeroRecord rfl
  refine ⟨a rfl, b rfl rfl, ?_, d4⟩
  have := c 5 (by norm_num) (by rw [U32MOD_eq]; norm_num)
  simpa using this

/-- Witness for C8: the locator contract evaluated on concrete tables. -/
theorem find_partition_contract_witness :
    find_partition_by_type ([sampleApp0].map .ok) .dataOta =
      .error .partitionNotFound ∧
    find_partition_by_type (([] ++ sampleMeta :: [sampleApp0]).map .ok) .dataOta =
      .ok sampleMeta ∧
    find_partition_by_type (([] ++ sampleMeta :: [sampleApp0]).map .ok ++
      .ok sampleMeta2 :: []) .dataOta = .error .partitionFoundTwice ∧
    find_partition_by_type ([sampleApp0].map .ok ++ .error () :: []) .dataOta =
      .error .norFlashOpError ∧
    find_partition_by_name ([sampleApp0].map .ok) "otadata" =
      .error .partitionNotFound ∧
    find_partition_by_name (([] ++ sampleMeta :: [sampleApp0]).map .ok) "otadata" =
      .ok sampleMeta ∧
    find_partition_by_name (([] ++ sampleMeta :: [sampleApp0]).map .ok ++
      .ok sampleMeta2 :: []) "otadata" = .error .partitionFoundTwice ∧
    find_partition_by_name ([sampleApp0].map .ok ++ .error () :: []) "otadata" =
      .error .norFlashOpError := by
  obtain ⟨a, b, c, d, e, f, g, h⟩ := find_partition_contract [sampleApp0] []
    [sampleApp0] [] sampleMeta sampleMeta2 .dataOta "otadata"
  exact ⟨a (by decide), b (by decide) (by decide) (by decide),
    c (by decide) (by decide) (by decide) (by decide), d (by decide),
    e (by decide), f (by decide) (by decide) (by decide),
    g (by decide) (by decide) (by decide) (by decide), h (by decide)⟩

end EspOta
